import Mathlib

/-!
Shallow embedding of `src/treebark.js`.

The program is a hierarchical logger: a tree of `Logger` / `SubLogger`
objects. Each object holds its own indentation `depth`, an optional `parent`
reference, a `prefix` string, an optional own file `stream`, and the private
fields `_lastMessageTime`, `_timeFormat` and `_indentTemp`. All "effective"
values (last message time, time format, file stream, indent depth) are
resolved by dynamic getters that walk the parent chain on every read.

Heap model: a `Sys` holds the list of logger nodes (heap references are list
indices) and the list of open write streams, plus the console transcript.
Children are only ever created by `group()` on an existing node, so a
child's parent index is always strictly smaller than the child's own index;
the walker functions use that decrease for termination, with a junk fallback
on the (unreachable) ill-formed heaps.
-/

namespace Treebark

/-- A Node.js writable stream as produced by `fs.createWriteStream`.
`written` records each `write` call on the stream, paired with whether the
stream had already been ended (`end()`) at the moment of that write. -/
structure WriteStream where
  path : String
  flags : String
  encoding : String
  ended : Bool
  written : List (String × Bool)
deriving DecidableEq

/-- Default stream value used for out-of-range stream lookups. -/
def dStream : WriteStream :=
  { path := "", flags := "", encoding := "", ended := false, written := [] }

/-- One logger object (`Logger` or `SubLogger`). Field mapping to the source:
`depth` is `this.depth`, `parent` is `this.parent`, `prefixStr` is
`this.prefix`, `stream` is `this.stream`, `lastMsgOwn` is
`this._lastMessageTime`, `timeFmtOwn` is `this._timeFormat`, `indentTemp` is
`this._indentTemp` (absent treated as `false`, matching JS truthiness of
`undefined`). `isSub` records whether the object is a `SubLogger`, which
overrides `get defaultDepth` and defines `end()`. -/
structure Node where
  depth : Int
  parent : Option Nat
  prefixStr : String
  stream : Option Nat
  lastMsgOwn : Option Int
  timeFmtOwn : Option String
  indentTemp : Bool
  isSub : Bool
deriving DecidableEq

/-- Default node value used for out-of-range heap lookups. -/
def dNode : Node :=
  { depth := 0, parent := none, prefixStr := "", stream := none,
    lastMsgOwn := none, timeFmtOwn := none, indentTemp := false, isSub := false }

/-- The whole program state: the heap of logger nodes, the streams created by
`fs.createWriteStream`, and the `console.info` transcript. -/
structure Sys where
  nodes : List Node
  streams : List WriteStream
  console : List String
deriving DecidableEq

def emptySys : Sys := { nodes := [], streams := [], console := [] }

/-- Heap lookup of a logger node by reference. -/
def nodeAt (ns : List Node) (i : Nat) : Node := ns.getD i dNode

/-- JS truthiness of the string-or-missing `_timeFormat` field: `undefined`,
`null` and the empty string are falsy. -/
def strTruthy : Option String → Bool
  | some s => s != ""
  | none => false

/-- The `|| +new Date()` part of `get lastMessageTime` at the root: the
stored `_lastMessageTime` if it is truthy (a stored 0 is falsy in JS and
falls back to now), else the current time. -/
def ownLast (n : Node) (now : Int) : Int :=
  match n.lastMsgOwn with
  | some t => if t = 0 then now else t
  | none => now

/-- Getter `get lastMessageTime`: `if (this.parent) return
this.parent.lastMessageTime; return this._lastMessageTime || +new Date();`.
`now` stands for `+new Date()` at read time. The walk is written with an
explicit structural bound (`fuel`): in a well-formed heap a parent reference
is strictly smaller than the child's, so the wrapper's bound of one more
than the node's own reference always suffices and the `fuel = 0` fallback is
never reached. -/
def lastMessageTimeGo (ns : List Node) (now : Int) : Nat → Nat → Int
  | 0, _ => now
  | fuel+1, i =>
    match (nodeAt ns i).parent with
    | some p => if p < i then lastMessageTimeGo ns now fuel p else now
    | none => ownLast (nodeAt ns i) now

/-- Getter `get lastMessageTime` on node `i`. -/
def lastMessageTime (ns : List Node) (now : Int) (i : Nat) : Int :=
  lastMessageTimeGo ns now (i+1) i

/-- Setter `set lastMessageTime(value)`: walks to the root and stores the
value in the root's `_lastMessageTime` (bounded walk as above). -/
def setLastMessageTimeGo (ns : List Node) (v : Int) : Nat → Nat → List Node
  | 0, _ => ns
  | fuel+1, i =>
    match (nodeAt ns i).parent with
    | some p => if p < i then setLastMessageTimeGo ns v fuel p else ns
    | none => ns.set i { nodeAt ns i with lastMsgOwn := some v }

/-- Setter `set lastMessageTime(value)` on node `i`. -/
def setLastMessageTime (ns : List Node) (v : Int) (i : Nat) : List Node :=
  setLastMessageTimeGo ns v (i+1) i

/-- Getter `get timeFormat`: own `_timeFormat` if truthy, else the parent's
`timeFormat` if a parent exists, else `null` (bounded walk as above). -/
def timeFormatGo (ns : List Node) : Nat → Nat → Option String
  | 0, _ => none
  | fuel+1, i =>
    if strTruthy (nodeAt ns i).timeFmtOwn then (nodeAt ns i).timeFmtOwn
    else
      match (nodeAt ns i).parent with
      | some p => if p < i then timeFormatGo ns fuel p else none
      | none => none

/-- Getter `get timeFormat` on node `i`. -/
def timeFormat (ns : List Node) (i : Nat) : Option String :=
  timeFormatGo ns (i+1) i

/-- Getter `get fileStream`: `if (this.parent) return this.parent.fileStream;
return this.stream;` — always climbs to the top of the tree and ignores the
own stream of every non-root node (bounded walk as above). -/
def fileStreamGo (ns : List Node) : Nat → Nat → Option Nat
  | 0, _ => none
  | fuel+1, i =>
    match (nodeAt ns i).parent with
    | some p => if p < i then fileStreamGo ns fuel p else none
    | none => (nodeAt ns i).stream

/-- Getter `get fileStream` on node `i`. -/
def fileStream (ns : List Node) (i : Nat) : Option Nat :=
  fileStreamGo ns (i+1) i

/-- Getter `get indentDepth`: this node's `depth` plus the parent's
`indentDepth` when a parent exists (bounded walk as above). -/
def indentDepthGo (ns : List Node) : Nat → Nat → Int
  | 0, i => (nodeAt ns i).depth
  | fuel+1, i =>
    match (nodeAt ns i).parent with
    | some p => if p < i then (nodeAt ns i).depth + indentDepthGo ns fuel p else (nodeAt ns i).depth
    | none => (nodeAt ns i).depth

/-- Getter `get indentDepth` on node `i`. -/
def indentDepth (ns : List Node) (i : Nat) : Int :=
  indentDepthGo ns (i+1) i

/-- Reference of the root of the tree containing node `i` (the object
reached by following `parent` until it is absent; bounded walk as above).
Not a source method; used to state which heap cell the walking getters and
setters resolve to. -/
def rootOfGo (ns : List Node) : Nat → Nat → Nat
  | 0, i => i
  | fuel+1, i =>
    match (nodeAt ns i).parent with
    | some p => if p < i then rootOfGo ns fuel p else i
    | none => i

/-- Reference of the root of the tree containing node `i`. -/
def rootOf (ns : List Node) (i : Nat) : Nat :=
  rootOfGo ns (i+1) i

/-- Getter `get defaultDepth`: `0` on `Logger`, overridden to `1` on
`SubLogger`. -/
def Node.defaultDepth (n : Node) : Int := if n.isSub then 1 else 0

/-- Replace the node stored at reference `i`. -/
def Sys.setNode (sys : Sys) (i : Nat) (n : Node) : Sys :=
  { sys with nodes := sys.nodes.set i n }

/-- `indent()`: `this.depth++`. -/
def indent (sys : Sys) (i : Nat) : Sys :=
  sys.setNode i { nodeAt sys.nodes i with depth := (nodeAt sys.nodes i).depth + 1 }

/-- `unindent()`: `this.depth = Math.max(0, this.depth - 1)`. -/
def unindent (sys : Sys) (i : Nat) : Sys :=
  sys.setNode i { nodeAt sys.nodes i with depth := max 0 ((nodeAt sys.nodes i).depth - 1) }

/-- `clearIndent()`: `this.depth = this.defaultDepth`. -/
def clearIndent (sys : Sys) (i : Nat) : Sys :=
  sys.setNode i { nodeAt sys.nodes i with depth := (nodeAt sys.nodes i).defaultDepth }

/-- `indentNext()`: `if (!this._indentTemp) { this.indent(); this._indentTemp
= true; }`. -/
def indentNext (sys : Sys) (i : Nat) : Sys :=
  if (nodeAt sys.nodes i).indentTemp then sys
  else
    let sys2 := indent sys i
    sys2.setNode i { nodeAt sys2.nodes i with indentTemp := true }

/-- `setPrefix(prefix)`: `this.prefix = typeof prefix === 'string' ?
prefix.trim() + ' ' : '';`. `none` stands for any non-string argument. -/
def setPrefixStr (sys : Sys) (i : Nat) (p : Option String) : Sys :=
  sys.setNode i { nodeAt sys.nodes i with
    prefixStr := match p with | some s => s.trim ++ " " | none => "" }

/-- Model of `fs.createWriteStream(path, options)`. The source passes only
`{ encoding: 'utf8' }`, so `options.flags` is absent and the stream is opened
with the `fs` documentation's default flags for `createWriteStream`, namely
"w" (create the file or truncate an existing one for writing). -/
def createWriteStream (path : String) (encoding : String) (flags : Option String) : WriteStream :=
  { path := path, flags := flags.getD "w", encoding := encoding,
    ended := false, written := [] }

/-- `stream.end()`: marks the stream released. -/
def endStream (sys : Sys) (sid : Nat) : Sys :=
  { sys with streams := sys.streams.set sid { sys.streams.getD sid dStream with ended := true } }

/-- `stream.write(data)`: records the chunk, together with whether the stream
had already been ended (a write after `end()` raises
`ERR_STREAM_WRITE_AFTER_END` in Node). -/
def streamWrite (sys : Sys) (sid : Nat) (data : String) : Sys :=
  let s := sys.streams.getD sid dStream
  { sys with streams := sys.streams.set sid { s with written := s.written ++ [(data, s.ended)] } }

/-- `setLogFile(file)`: `if (this.stream) this.stream.end(); if (typeof file
=== 'string') this.stream = fs.createWriteStream(file, { encoding: 'utf8'
});`. When `file` is not a string, `this.stream` is left unchanged — still
referencing the just-ended stream. -/
def setLogFile (sys : Sys) (i : Nat) (file : Option String) : Sys :=
  let sys1 :=
    match (nodeAt sys.nodes i).stream with
    | some sid => endStream sys sid
    | none => sys
  match file with
  | some f =>
    let sid := sys1.streams.length
    let sys2 := { sys1 with streams := sys1.streams ++ [createWriteStream f "utf8" none] }
    sys2.setNode i { nodeAt sys2.nodes i with stream := some sid }
  | none => sys1

/-- `setTimeFormat(format)`: `this._timeFormat = format`. -/
def setTimeFormat (sys : Sys) (i : Nat) (format : Option String) : Sys :=
  sys.setNode i { nodeAt sys.nodes i with timeFmtOwn := format }

/-- `new Logger(prefix, file)`: allocates a fresh node with `depth = 0` and
`parent = null`, then runs `setPrefix(prefix)` and `setLogFile(file)`.
Returns the updated state and the reference of the new node. -/
def mkLogger (sys : Sys) (prefixArg file : Option String) : Sys × Nat :=
  let i := sys.nodes.length
  let sys1 := { sys with nodes := sys.nodes ++ [dNode] }
  let sys2 := setPrefixStr sys1 i prefixArg
  (setLogFile sys2 i file, i)

/-- `group()`, i.e. `new SubLogger(this)`: the `SubLogger` constructor runs
the `Logger` constructor with no arguments (empty prefix, no stream), then
sets `depth = 1` and `parent` to the creating node. Returns the updated
state and the reference of the new child. -/
def group (sys : Sys) (i : Nat) : Sys × Nat :=
  let child : Node :=
    { depth := 1, parent := some i, prefixStr := "", stream := none,
      lastMsgOwn := none, timeFmtOwn := none, indentTemp := false, isSub := true }
  ({ sys with nodes := sys.nodes ++ [child] }, sys.nodes.length)

/-- External formatting collaborators used by `write`, kept abstract:
`format` is `util.format`, `stripAnsi` the `strip-ansi` transform,
`momentFormat now fmt` is `moment().format(fmt)` at time `now`, and
`fixed2 ms` is the JS rendering `(ms / 1000).toFixed(2)` of a millisecond
difference. -/
structure Collab where
  format : String → List String → String
  stripAnsi : String → String
  momentFormat : Int → String → String
  fixed2 : Int → String

/-- The `offset` computation at the top of `write`: an absolute formatted
time when `this.timeFormat !== null`, else
`'+' + ((now - this.lastMessageTime) / 1000).toFixed(2)`. -/
def offsetFor (c : Collab) (ns : List Node) (i : Nat) (now : Int) : String :=
  match timeFormat ns i with
  | some f => c.momentFormat now f
  | none => "+" ++ c.fixed2 (now - lastMessageTime ns now i)

/-- The indentation padding `'    '.repeat(this.indentDepth)`. -/
def padFor (ns : List Node) (i : Nat) : String :=
  String.join (List.replicate (indentDepth ns i).toNat "    ")

/-- The TypeError raised by `message.toString()` when `message` is `null` or
`undefined`. -/
inductive WriteErr
  | nullMessage
deriving DecidableEq

/-- `write(message, ...args)`: computes the offset label and padding, builds
`offset + ' ' + this.prefix + padding + util.format(message.toString(),
...args)`, prints it with `console.info`, appends the ANSI-stripped line to
`this.fileStream` when one resolves, stores `now` through the
`lastMessageTime` setter (which walks to the root), and finally runs one
`unindent()` if `this._indentTemp` is set — without ever clearing the flag.
A `null`/`undefined` message (`none`) throws at `message.toString()`, after
the pure offset and padding reads but before any output or mutation; the
state at the throw is returned alongside the error. -/
def write (c : Collab) (sys : Sys) (i : Nat) (now : Int)
    (message : Option String) (args : List String) : Sys × Except WriteErr String :=
  let offset := offsetFor c sys.nodes i now
  let padding := padFor sys.nodes i
  match message with
  | none => (sys, Except.error WriteErr.nullMessage)
  | some msg =>
    let output := offset ++ " " ++ (nodeAt sys.nodes i).prefixStr ++ padding ++ c.format msg args
    let sys1 := { sys with console := sys.console ++ [output] }
    let sys2 :=
      match fileStream sys1.nodes i with
      | some sid => streamWrite sys1 sid (c.stripAnsi output ++ "\n")
      | none => sys1
    let sys3 := { sys2 with nodes := setLastMessageTime sys2.nodes now i }
    let sys4 := if (nodeAt sys3.nodes i).indentTemp then unindent sys3 i else sys3
    (sys4, Except.ok output)

/-- The TypeError raised by calling a method that the object does not have. -/
inductive CallErr
  | noSuchMethod
deriving DecidableEq

/-- Method dispatch for `end()`: the method is defined on
`SubLogger.prototype` only and returns `this.parent`; on a plain `Logger`
(a root) the property is `undefined` and the call raises a TypeError. The
call reads the heap and returns no new state: it mutates nothing. -/
def endCall (sys : Sys) (i : Nat) : Except CallErr (Option Nat) :=
  if (nodeAt sys.nodes i).isSub then Except.ok (nodeAt sys.nodes i).parent
  else Except.error CallErr.noSuchMethod

/-- Heap well-formedness at one cell: a stored parent reference is strictly
smaller than the cell's own reference. -/
def parentOk (i : Nat) (n : Node) : Bool :=
  match n.parent with
  | some p => decide (p < i)
  | none => true

/-- Decidable heap well-formedness: every allocated node's parent reference
points strictly below it. Heaps built by `mkLogger` and `group` satisfy
this, since a child is always allocated after its parent. -/
def wf (ns : List Node) : Bool :=
  (List.range ns.length).all fun i => parentOk i (nodeAt ns i)

/-- Propositional form of `wf`, covering out-of-range references as well
(those read as `dNode`, which has no parent). -/
def WFP (ns : List Node) : Prop :=
  ∀ i p, (nodeAt ns i).parent = some p → p < i

/-- Decidable statement that every node's `depth` is nonnegative. -/
def depthsOkB (ns : List Node) : Bool :=
  ns.all fun n => decide (0 ≤ n.depth)

/-- Propositional form of `depthsOkB`, also covering out-of-range references
(those read as `dNode`, whose depth is 0). -/
def depthsOk (ns : List Node) : Prop :=
  ∀ j, 0 ≤ (nodeAt ns j).depth

/-- Which `fs` open flags preserve the existing contents of the file (the
append family, per the `fs` documentation); the write family `w`/`w+`/`wx`
truncates instead. -/
def preservesExisting (flags : String) : Bool :=
  flags = "a" || flags = "ax" || flags = "a+" || flags = "ax+" || flags = "as" || flags = "as+"

/-- Concrete instantiation of the formatting collaborators, used to evaluate
scenarios: interpolation ignores the arguments, ANSI stripping is the
identity, and both time renderers are constant. -/
def trivialCollab : Collab :=
  { format := fun s _ => s, stripAnsi := fun s => s,
    momentFormat := fun _ f => f, fixed2 := fun _ => "0.00" }

/-- Scenario state: `new Logger()` — a single root node, reference 0. -/
def rootSys : Sys := (mkLogger emptySys none none).1

/-- Scenario state: a root (reference 0) with one `group()` child
(reference 1). -/
def treeSys : Sys := (group rootSys 0).1

/-- Scenario state for the temporary-indent bug: `log.indent();
log.indentNext();` on a fresh root — depth is 2 and the flag is set. -/
def c1sysA : Sys := indentNext (indent rootSys 0) 0

/-- Scenario state after the first `write` consuming the temporary indent. -/
def c1sysB : Sys := (write trivialCollab c1sysA 0 0 (some "a") []).1

/-- Scenario state after a second `write` with no intervening
`indentNext`. -/
def c1sysC : Sys := (write trivialCollab c1sysB 0 1 (some "b") []).1

/-- Scenario state: `new Logger(null, 'a.log')` — a root owning stream 0. -/
def c2sys0 : Sys := (mkLogger emptySys none (some "a.log")).1

/-- Scenario state after `setLogFile()` with no path: the stream is ended
but the node still references it. -/
def c2sys1 : Sys := setLogFile c2sys0 0 none

/-- Scenario state after a `write` following the release. -/
def c2sys2 : Sys := (write trivialCollab c2sys1 0 0 (some "x") []).1

/-- Scenario state: root and child, then `root.setLogFile('log.txt')` after
the child already exists. -/
def c7sys3 : Sys := setLogFile treeSys 0 (some "log.txt")

/-- Scenario state after the child's `write`: the line lands in the stream
the root opened after the child's construction. -/
def c7sys4 : Sys := (write trivialCollab c7sys3 1 0 (some "m") []).1

/-- Scenario state: additionally give the child its own stream via
`setLogFile` on the child — the resolver still ignores it. -/
def c7sys5 : Sys := setLogFile c7sys3 1 (some "child.log")

/-! Helper lemmas about heap lookups and updates. -/

theorem nodeAt_set_self (ns : List Node) (i : Nat) (n : Node) (h : i < ns.length) :
    nodeAt (ns.set i n) i = n := by
  simp [nodeAt, List.getD_eq_getD_get?, List.getElem?_set_self h]

theorem nodeAt_set_ne (ns : List Node) (i j : Nat) (n : Node) (h : i ≠ j) :
    nodeAt (ns.set i n) j = nodeAt ns j := by
  simp [nodeAt, List.getD_eq_getD_get?, List.getElem?_set_ne h]

theorem nodeAt_oob (ns : List Node) (i : Nat) (h : ns.length ≤ i) :
    nodeAt ns i = dNode :=
  List.getD_eq_default ns dNode h

theorem wf_to_WFP (ns : List Node) (h : wf ns = true) : WFP ns := by
  intro i p hp
  by_cases hi : i < ns.length
  · have h2 := List.all_eq_true.mp h i (List.mem_range.mpr hi)
    unfold parentOk at h2
    rw [hp] at h2
    simpa using h2
  · have hd : nodeAt ns i = dNode := nodeAt_oob ns i (Nat.le_of_not_lt hi)
    rw [hd] at hp
    simp [dNode] at hp

/-! Lemmas about the walking getters and the root. Each is proved by
induction on the fuel; the `i < fuel` hypothesis keeps the bounded walk on
the real parent chain. -/

theorem rootOfGo_le (ns : List Node) : ∀ fuel i, rootOfGo ns fuel i ≤ i := by
  intro fuel
  induction fuel with
  | zero => intro i; exact Nat.le_refl i
  | succ f ih =>
    intro i
    unfold rootOfGo
    cases hp : (nodeAt ns i).parent with
    | none => simp
    | some p =>
      simp only
      by_cases h : p < i
      · simpa [h] using Nat.le_trans (ih p) (Nat.le_of_lt h)
      · simp [h]

theorem rootOf_le (ns : List Node) (i : Nat) : rootOf ns i ≤ i :=
  rootOfGo_le ns (i+1) i

theorem rootOfGo_parent_none (ns : List Node) (hw : WFP ns) :
    ∀ fuel i, i < fuel → (nodeAt ns (rootOfGo ns fuel i)).parent = none := by
  intro fuel
  induction fuel with
  | zero => intro i h; exact absurd h (Nat.not_lt_zero i)
  | succ f ih =>
    intro i hfi
    unfold rootOfGo
    cases hp : (nodeAt ns i).parent with
    | none => simpa using hp
    | some p =>
      have h : p < i := hw i p hp
      simpa [h] using ih p (by omega)

theorem rootOf_parent_none (ns : List Node) (hw : WFP ns) (i : Nat) :
    (nodeAt ns (rootOf ns i)).parent = none :=
  rootOfGo_parent_none ns hw (i+1) i (Nat.lt_succ_self i)

theorem lastMessageTimeGo_eq_root (ns : List Node) (hw : WFP ns) (now : Int) :
    ∀ fuel i, i < fuel →
      lastMessageTimeGo ns now fuel i = ownLast (nodeAt ns (rootOfGo ns fuel i)) now := by
  intro fuel
  induction fuel with
  | zero => intro i h; exact absurd h (Nat.not_lt_zero i)
  | succ f ih =>
    intro i hfi
    unfold lastMessageTimeGo rootOfGo
    cases hp : (nodeAt ns i).parent with
    | none => simp
    | some p =>
      have h : p < i := hw i p hp
      simpa [h] using ih p (by omega)

theorem lastMessageTime_eq_root (ns : List Node) (hw : WFP ns) (now : Int) (i : Nat) :
    lastMessageTime ns now i = ownLast (nodeAt ns (rootOf ns i)) now :=
  lastMessageTimeGo_eq_root ns hw now (i+1) i (Nat.lt_succ_self i)

theorem setLastMessageTimeGo_eq_root (ns : List Node) (hw : WFP ns) (v : Int) :
    ∀ fuel i, i < fuel →
      setLastMessageTimeGo ns v fuel i =
        ns.set (rootOfGo ns fuel i) { nodeAt ns (rootOfGo ns fuel i) with lastMsgOwn := some v } := by
  intro fuel
  induction fuel with
  | zero => intro i h; exact absurd h (Nat.not_lt_zero i)
  | succ f ih =>
    intro i hfi
    unfold setLastMessageTimeGo rootOfGo
    cases hp : (nodeAt ns i).parent with
    | none => simp
    | some p =>
      have h : p < i := hw i p hp
      simpa [h] using ih p (by omega)

theorem setLastMessageTime_eq_root (ns : List Node) (hw : WFP ns) (v : Int) (i : Nat) :
    setLastMessageTime ns v i =
      ns.set (rootOf ns i) { nodeAt ns (rootOf ns i) with lastMsgOwn := some v } :=
  setLastMessageTimeGo_eq_root ns hw v (i+1) i (Nat.lt_succ_self i)

theorem fileStreamGo_eq_root (ns : List Node) (hw : WFP ns) :
    ∀ fuel i, i < fuel → fileStreamGo ns fuel i = (nodeAt ns (rootOfGo ns fuel i)).stream := by
  intro fuel
  induction fuel with
  | zero => intro i h; exact absurd h (Nat.not_lt_zero i)
  | succ f ih =>
    intro i hfi
    unfold fileStreamGo rootOfGo
    cases hp : (nodeAt ns i).parent with
    | none => simp
    | some p =>
      have h : p < i := hw i p hp
      simpa [h] using ih p (by omega)

theorem fileStream_eq_root (ns : List Node) (hw : WFP ns) (i : Nat) :
    fileStream ns i = (nodeAt ns (rootOf ns i)).stream :=
  fileStreamGo_eq_root ns hw (i+1) i (Nat.lt_succ_self i)

theorem fileStreamGo_fuel (ns : List Node) :
    ∀ f f' i, i < f → i < f' → fileStreamGo ns f i = fileStreamGo ns f' i := by
  intro f
  induction f with
  | zero => intro f' i h; exact absurd h (Nat.not_lt_zero i)
  | succ f ih =>
    intro f' i hf hf'
    cases f' with
    | zero => exact absurd hf' (Nat.not_lt_zero i)
    | succ f' =>
      unfold fileStreamGo
      cases hp : (nodeAt ns i).parent with
      | none => simp
      | some p =>
        by_cases h : p < i
        · simpa [h] using ih f' p (by omega) (by omega)
        · simp [h]

theorem indentDepthGo_fuel (ns : List Node) :
    ∀ f f' i, i < f → i < f' → indentDepthGo ns f i = indentDepthGo ns f' i := by
  intro f
  induction f with
  | zero => intro f' i h; exact absurd h (Nat.not_lt_zero i)
  | succ f ih =>
    intro f' i hf hf'
    cases f' with
    | zero => exact absurd hf' (Nat.not_lt_zero i)
    | succ f' =>
      unfold indentDepthGo
      cases hp : (nodeAt ns i).parent with
      | none => simp
      | some p =>
        by_cases h : p < i
        · simpa [h] using ih f' p (by omega) (by omega)
        · simp [h]

theorem indentDepthGo_succ (ns : List Node) (fuel i : Nat) :
    indentDepthGo ns (fuel+1) i =
      match (nodeAt ns i).parent with
      | some p =>
        if p < i then (nodeAt ns i).depth + indentDepthGo ns fuel p else (nodeAt ns i).depth
      | none => (nodeAt ns i).depth := rfl

theorem fileStreamGo_succ (ns : List Node) (fuel i : Nat) :
    fileStreamGo ns (fuel+1) i =
      match (nodeAt ns i).parent with
      | some p => if p < i then fileStreamGo ns fuel p else none
      | none => (nodeAt ns i).stream := rfl

theorem depth_setLastMessageTimeGo (ns : List Node) (v : Int) :
    ∀ fuel i j, (nodeAt (setLastMessageTimeGo ns v fuel i) j).depth = (nodeAt ns j).depth := by
  intro fuel
  induction fuel with
  | zero => intro i j; rfl
  | succ f ih =>
    intro i j
    unfold setLastMessageTimeGo
    cases hp : (nodeAt ns i).parent with
    | some p =>
      simp only
      by_cases h : p < i
      · simpa [h] using ih p j
      · simp [h]
    | none =>
      simp only
      by_cases hij : i = j
      · subst hij
        by_cases hi : i < ns.length
        · rw [nodeAt_set_self _ _ _ hi]
        · rw [List.set_eq_of_length_le (Nat.le_of_not_lt hi)]
      · rw [nodeAt_set_ne _ _ _ _ hij]

theorem depth_setLastMessageTime (ns : List Node) (v : Int) (i j : Nat) :
    (nodeAt (setLastMessageTime ns v i) j).depth = (nodeAt ns j).depth :=
  depth_setLastMessageTimeGo ns v (i+1) i j

theorem depthsOkB_iff (ns : List Node) : depthsOkB ns = true ↔ depthsOk ns := by
  unfold depthsOkB depthsOk
  rw [List.all_eq_true]
  constructor
  · intro h j
    by_cases hj : j < ns.length
    · have hm : nodeAt ns j ∈ ns := by
        rw [nodeAt, List.getD_eq_getElem ns dNode hj]
        exact List.getElem_mem hj
      simpa using h _ hm
    · rw [nodeAt_oob ns j (Nat.le_of_not_lt hj)]
      simp [dNode]
  · intro h n hn
    obtain ⟨k, hk, rfl⟩ := List.mem_iff_getElem.mp hn
    have hk2 := h k
    rw [nodeAt, List.getD_eq_getElem ns dNode hk] at hk2
    simpa using hk2

theorem depthsOk_set (ns : List Node) (i : Nat) (n : Node) (hOk : depthsOk ns)
    (hn : 0 ≤ n.depth) : depthsOk (ns.set i n) := by
  intro j
  by_cases hij : i = j
  · subst hij
    by_cases hi : i < ns.length
    · rw [nodeAt_set_self _ _ _ hi]; exact hn
    · rw [List.set_eq_of_length_le (Nat.le_of_not_lt hi)]; exact hOk i
  · rw [nodeAt_set_ne _ _ _ _ hij]; exact hOk j

theorem write_nodes (c : Collab) (sys : Sys) (i : Nat) (now : Int) (msg : String)
    (args : List String) :
    (write c sys i now (some msg) args).1.nodes =
      (if (nodeAt (setLastMessageTime sys.nodes now i) i).indentTemp
       then (setLastMessageTime sys.nodes now i).set i
         { nodeAt (setLastMessageTime sys.nodes now i) i with
           depth := max 0 ((nodeAt (setLastMessageTime sys.nodes now i) i).depth - 1) }
       else setLastMessageTime sys.nodes now i) := by
  unfold write
  cases h : fileStream sys.nodes i <;>
    simp only [h, streamWrite, unindent, Sys.setNode] <;>
    split <;> rfl

theorem getD_append_self {α : Type} (l : List α) (a d : α) :
    (l ++ [a]).getD l.length d = a := by
  rw [List.getD_append_right l [a] d l.length (Nat.le_refl _)]
  simp

theorem setLogFile_opens_w (sys : Sys) (i : Nat) (path : String) :
    (setLogFile sys i (some path)).streams.getD sys.streams.length dStream =
      { path := path, flags := "w", encoding := "utf8", ended := false, written := [] } := by
  unfold setLogFile
  cases hs : (nodeAt sys.nodes i).stream with
  | none =>
    simp only [hs, Sys.setNode, createWriteStream]
    exact getD_append_self _ _ _
  | some sid =>
    simp only [hs, Sys.setNode, endStream, createWriteStream]
    have hlen : sys.streams.length = (sys.streams.set sid
        { sys.streams.getD sid dStream with ended := true }).length :=
      (List.length_set _ _ _).symm
    rw [hlen, getD_append_self]
    rfl

theorem setLogFile_sets_ref (sys : Sys) (i : Nat) (path : String)
    (hi : i < sys.nodes.length) :
    (nodeAt (setLogFile sys i (some path)).nodes i).stream = some sys.streams.length := by
  unfold setLogFile
  cases hs : (nodeAt sys.nodes i).stream with
  | none =>
    simp only [hs, Sys.setNode]
    rw [nodeAt_set_self _ _ _ hi]
  | some sid =>
    simp only [hs, Sys.setNode, endStream]
    rw [nodeAt_set_self _ _ _ hi]
    simp [List.length_set]

/-- C1: the temporary-indent flag is never cleared by `write`. Evaluation at
the failing input: on a fresh root, `indent()` brings the depth to 1 and
`indentNext()` to 2 with the flag set; the first `write` unindents back to
the pre-`indentNext` depth 1 but leaves `_indentTemp` set, so a second
`write` with no intervening `indentNext` unindents again to depth 0, and a
later `indentNext()` call is a complete no-op. The claim that `write`
"clears the flag" (so that a second write does not change the depth again)
fails on the code. -/
theorem c1_indentTemp_never_cleared :
    (nodeAt (indent rootSys 0).nodes 0).depth = 1
    ∧ (nodeAt c1sysA.nodes 0).depth = 2
    ∧ (nodeAt c1sysA.nodes 0).indentTemp = true
    ∧ (nodeAt c1sysB.nodes 0).depth = 1
    ∧ (nodeAt c1sysB.nodes 0).indentTemp = true
    ∧ (nodeAt c1sysC.nodes 0).depth = 0
    ∧ indentNext c1sysB 0 = c1sysB := by decide

/-- C2: releasing the log stream does not detach it. Evaluation at the
failing input: after `new Logger(null, 'a.log')` and `setLogFile()` with no
path, the stream is ended but the node's `stream` slot still references it,
`fileStream` still resolves to it, and the next `write` writes to the
released stream — the `true` in the recorded entry says the stream had
already been ended at the moment of that write. The claim that the node is
left with no own stream and that a released stream is never written to
fails on the code. -/
theorem c2_write_after_stream_release :
    (nodeAt c2sys1.nodes 0).stream = some 0
    ∧ (c2sys1.streams.getD 0 dStream).ended = true
    ∧ fileStream c2sys1.nodes 0 = some 0
    ∧ (c2sys2.streams.getD 0 dStream).written = [("+0.00 x\n", true)] := by decide

/-- C3 counterexample: `end()` is not a total accessor on every node — a
root `Logger` has no `end` method (it is defined on `SubLogger` only), so
the call on a root raises a TypeError instead of returning the node
itself. -/
theorem c3_end_on_root_is_type_error :
    endCall rootSys 0 = Except.error CallErr.noSuchMethod := rfl

/-- C3 (amended): on a child/group node, `end()` is a pure accessor
returning the parent — it takes the state and returns only a value, so it
mutates nothing and cannot fail there; on a root-kind node the method does
not exist and the call is a TypeError. -/
theorem c3_end_child_accessor (sys : Sys) (i : Nat) :
    ((nodeAt sys.nodes i).isSub = true → endCall sys i = Except.ok (nodeAt sys.nodes i).parent)
    ∧ ((nodeAt sys.nodes i).isSub = false → endCall sys i = Except.error CallErr.noSuchMethod) := by
  constructor <;> intro h <;> simp [endCall, h]

/-- C3 witness: the amended statement evaluated on the child of the
two-node scenario tree. -/
theorem c3_end_child_accessor_witness :
    endCall treeSys 1 = Except.ok (nodeAt treeSys.nodes 1).parent :=
  (c3_end_child_accessor treeSys 1).1 (by decide)

/-- C4 counterexample: the stream opened by `new Logger(null, 'test.log')`
carries the `fs.createWriteStream` default flags "w", which do not preserve
the existing contents of the file — the file is truncated, not appended
to, so the claimed append-or-create semantics fail on the code. -/
theorem c4_stream_not_append :
    ((mkLogger emptySys none (some "test.log")).1.streams.getD 0 dStream).flags = "w"
    ∧ preservesExisting "w" = false := by decide

/-- C4 (amended): whenever a node is constructed with a path-like target or
`setLogFile` is called with a string path, the stream is opened in utf8
text mode with the default flags "w" — create-or-truncate semantics, not
append — and installed as the node's own stream. -/
theorem c4_stream_truncate_utf8 (sys : Sys) (i : Nat) (path : String)
    (hi : i < sys.nodes.length) :
    (setLogFile sys i (some path)).streams.getD sys.streams.length dStream =
      { path := path, flags := "w", encoding := "utf8", ended := false, written := [] }
    ∧ (nodeAt (setLogFile sys i (some path)).nodes i).stream = some sys.streams.length
    ∧ (mkLogger sys none (some path)).1.streams.getD sys.streams.length dStream =
      { path := path, flags := "w", encoding := "utf8", ended := false, written := [] } :=
  ⟨setLogFile_opens_w sys i path, setLogFile_sets_ref sys i path hi,
    setLogFile_opens_w _ _ path⟩

/-- C4 witness: the amended statement evaluated on the one-node scenario
root. -/
theorem c4_stream_truncate_utf8_witness :
    (setLogFile rootSys 0 (some "f.log")).streams.getD rootSys.streams.length dStream =
      { path := "f.log", flags := "w", encoding := "utf8", ended := false, written := [] } :=
  (c4_stream_truncate_utf8 rootSys 0 "f.log" (by decide)).1

/-- C5: in every well-formed tree the node reached by walking `parent` to
the top is parentless (the root) and stores the authoritative last-message
time: the `lastMessageTime` getter on any node reads the root's stored
value, the setter (run by every `write`) stores only into the root's own
field and leaves every other node untouched, a successful `write` on any
node leaves the root's stored time equal to `now`, and when no time format
is set the elapsed-time label is computed against that root-stored value —
the previous write anywhere in the tree — not the writing node's own
history. -/
theorem c5_root_timestamp_authoritative (c : Collab) (sys : Sys)
    (hwf : wf sys.nodes = true) (i : Nat) (hi : i < sys.nodes.length)
    (now v : Int) (msg : String) (args : List String) :
    (nodeAt sys.nodes (rootOf sys.nodes i)).parent = none
    ∧ lastMessageTime sys.nodes now i = ownLast (nodeAt sys.nodes (rootOf sys.nodes i)) now
    ∧ (∀ j, j ≠ rootOf sys.nodes i →
        nodeAt (setLastMessageTime sys.nodes v i) j = nodeAt sys.nodes j)
    ∧ (nodeAt (setLastMessageTime sys.nodes v i) (rootOf sys.nodes i)).lastMsgOwn = some v
    ∧ (nodeAt (write c sys i now (some msg) args).1.nodes (rootOf sys.nodes i)).lastMsgOwn
        = some now
    ∧ (timeFormat sys.nodes i = none →
        offsetFor c sys.nodes i now =
          "+" ++ c.fixed2 (now - ownLast (nodeAt sys.nodes (rootOf sys.nodes i)) now)) := by
  have hw := wf_to_WFP sys.nodes hwf
  have hr : rootOf sys.nodes i < sys.nodes.length :=
    Nat.lt_of_le_of_lt (rootOf_le sys.nodes i) hi
  refine ⟨rootOf_parent_none sys.nodes hw i, lastMessageTime_eq_root sys.nodes hw now i,
    ?_, ?_, ?_, ?_⟩
  · intro j hj
    rw [setLastMessageTime_eq_root sys.nodes hw v i,
      nodeAt_set_ne _ _ _ _ (Ne.symm hj)]
  · rw [setLastMessageTime_eq_root sys.nodes hw v i, nodeAt_set_self _ _ _ hr]
  · rw [write_nodes, setLastMessageTime_eq_root sys.nodes hw now i]
    have hrn : (nodeAt (sys.nodes.set (rootOf sys.nodes i)
        { nodeAt sys.nodes (rootOf sys.nodes i) with lastMsgOwn := some now })
        (rootOf sys.nodes i)).lastMsgOwn = some now := by
      rw [nodeAt_set_self _ _ _ hr]
    by_cases ht : (nodeAt (sys.nodes.set (rootOf sys.nodes i)
        { nodeAt sys.nodes (rootOf sys.nodes i) with lastMsgOwn := some now }) i).indentTemp = true
    · rw [if_pos ht]
      by_cases hir : i = rootOf sys.nodes i
      · rw [← hir] at hrn ⊢
        rw [nodeAt_set_self _ _ _ (by rw [List.length_set]; exact hi)]
        simpa using hrn
      · rw [nodeAt_set_ne _ _ _ _ hir]
        exact hrn
    · rw [if_neg ht]
      exact hrn
  · intro hT
    unfold offsetFor
    rw [hT, lastMessageTime_eq_root sys.nodes hw now i]

/-- C5 witness: the theorem evaluated on the two-node scenario tree at its
child. -/
theorem c5_root_timestamp_authoritative_witness :
    (nodeAt treeSys.nodes (rootOf treeSys.nodes 1)).parent = none :=
  (c5_root_timestamp_authoritative trivialCollab treeSys (by decide) 1 (by decide)
    5 7 "m" []).1

/-- C6: a node's effective indent depth is its own `depth` plus the
parent's effective depth when a parent exists, else just its own `depth`;
on the concrete tree with root R (reference 0, depth 0) and child
C = R.group() (reference 1, depth 1), C's effective depth is 1, becomes 2
after C.indent(), and becomes 3 after an additional R.indent() that never
touches C. -/
theorem c6_indentDepth_composes :
    (∀ ns i, (nodeAt ns i).parent = none → indentDepth ns i = (nodeAt ns i).depth)
    ∧ (∀ ns i p, (nodeAt ns i).parent = some p → p < i →
        indentDepth ns i = (nodeAt ns i).depth + indentDepth ns p)
    ∧ indentDepth treeSys.nodes 1 = 1
    ∧ indentDepth (indent treeSys 1).nodes 1 = 2
    ∧ indentDepth (indent (indent treeSys 1) 0).nodes 1 = 3 := by
  refine ⟨?_, ?_, by decide, by decide, by decide⟩
  · intro ns i hp
    unfold indentDepth indentDepthGo
    simp [hp]
  · intro ns i p hp h
    show indentDepthGo ns (i+1) i = (nodeAt ns i).depth + indentDepthGo ns (p+1) p
    rw [← indentDepthGo_fuel ns i (p+1) p h (Nat.lt_succ_self p), indentDepthGo_succ]
    simp [hp, h]

/-- C6 witness: the parentless case of the composition law evaluated on the
scenario root. -/
theorem c6_indentDepth_composes_witness :
    indentDepth rootSys.nodes 0 = (nodeAt rootSys.nodes 0).depth :=
  c6_indentDepth_composes.1 rootSys.nodes 0 (by decide)

/-- C7: in every well-formed tree, a node with a parent resolves
`fileStream` to its parent's resolution — recursively, to the root's own
stream — regardless of any stream stored on the node itself; concretely,
after a root gains a log file via `setLogFile` when its child already
exists, the child's `fileStream` resolves to that new stream, the child's
`write` line lands in it (resolution happens at write time, not at
construction), and even a stream stored on the child itself is ignored. -/
theorem c7_fileStream_root_resolution (sys : Sys) (hwf : wf sys.nodes = true) (i p : Nat) :
    ((nodeAt sys.nodes i).parent = some p → fileStream sys.nodes i = fileStream sys.nodes p)
    ∧ fileStream sys.nodes i = (nodeAt sys.nodes (rootOf sys.nodes i)).stream
    ∧ (nodeAt c7sys3.nodes 1).stream = none
    ∧ fileStream c7sys3.nodes 1 = some 0
    ∧ (c7sys4.streams.getD 0 dStream).written = [("+0.00     m\n", false)]
    ∧ (nodeAt c7sys5.nodes 1).stream = some 1
    ∧ fileStream c7sys5.nodes 1 = some 0 := by
  have hw := wf_to_WFP sys.nodes hwf
  refine ⟨?_, fileStream_eq_root sys.nodes hw i, by decide, by decide, by decide,
    by decide, by decide⟩
  · intro hp
    have h : p < i := hw i p hp
    show fileStreamGo sys.nodes (i+1) i = fileStreamGo sys.nodes (p+1) p
    rw [← fileStreamGo_fuel sys.nodes i (p+1) p h (Nat.lt_succ_self p), fileStreamGo_succ]
    simp [hp, h]

/-- C7 witness: root resolution of `fileStream` evaluated on the two-node
scenario tree at its child. -/
theorem c7_fileStream_root_resolution_witness :
    fileStream treeSys.nodes 1 = (nodeAt treeSys.nodes (rootOf treeSys.nodes 1)).stream :=
  (c7_fileStream_root_resolution treeSys (by decide) 1 0).2.1

/-- C8: depth is never negative. `unindent()` sets the depth to
`max(0, depth - 1)`, so unindenting at depth 0 is a silent no-op, and each
of `indent`, `unindent`, `clearIndent` and a successful `write` preserves
nonnegativity of every node's depth. -/
theorem c8_depth_nonnegative (c : Collab) (sys : Sys) (i : Nat)
    (h : depthsOkB sys.nodes = true) (now : Int) (msg : String) (args : List String) :
    (nodeAt (unindent sys i).nodes i).depth = max 0 ((nodeAt sys.nodes i).depth - 1)
    ∧ ((nodeAt sys.nodes i).depth = 0 → (nodeAt (unindent sys i).nodes i).depth = 0)
    ∧ depthsOkB (indent sys i).nodes = true
    ∧ depthsOkB (unindent sys i).nodes = true
    ∧ depthsOkB (clearIndent sys i).nodes = true
    ∧ depthsOkB (write c sys i now (some msg) args).1.nodes = true := by
  have hOk : depthsOk sys.nodes := (depthsOkB_iff sys.nodes).mp h
  have hU : (nodeAt (unindent sys i).nodes i).depth
      = max 0 ((nodeAt sys.nodes i).depth - 1) := by
    simp only [unindent, Sys.setNode]
    by_cases hi : i < sys.nodes.length
    · rw [nodeAt_set_self _ _ _ hi]
    · have hle := Nat.le_of_not_lt hi
      rw [List.set_eq_of_length_le hle, nodeAt_oob _ _ hle]
      decide
  refine ⟨hU, ?_, ?_, ?_, ?_, ?_⟩
  · intro h0
    rw [hU, h0]
    decide
  · rw [depthsOkB_iff]
    simp only [indent, Sys.setNode]
    refine depthsOk_set _ _ _ hOk ?_
    show 0 ≤ (nodeAt sys.nodes i).depth + 1
    have := hOk i
    omega
  · rw [depthsOkB_iff]
    simp only [unindent, Sys.setNode]
    refine depthsOk_set _ _ _ hOk ?_
    show 0 ≤ max 0 ((nodeAt sys.nodes i).depth - 1)
    exact le_max_left 0 _
  · rw [depthsOkB_iff]
    simp only [clearIndent, Sys.setNode, Node.defaultDepth]
    refine depthsOk_set _ _ _ hOk ?_
    show 0 ≤ if (nodeAt sys.nodes i).isSub then (1 : Int) else 0
    split <;> decide
  · rw [depthsOkB_iff, write_nodes]
    have hOk3 : depthsOk (setLastMessageTime sys.nodes now i) := by
      intro j
      rw [depth_setLastMessageTime]
      exact hOk j
    by_cases ht : (nodeAt (setLastMessageTime sys.nodes now i) i).indentTemp = true
    · rw [if_pos ht]
      exact depthsOk_set _ _ _ hOk3 (le_max_left 0 _)
    · rw [if_neg ht]
      exact hOk3

/-- C8 witness: the `unindent` clamping equation evaluated on the two-node
scenario tree at its child. -/
theorem c8_depth_nonnegative_witness :
    (nodeAt (unindent treeSys 1).nodes 1).depth = max 0 ((nodeAt treeSys.nodes 1).depth - 1) :=
  (c8_depth_nonnegative trivialCollab treeSys 1 (by decide) 0 "m" []).1

/-- C9: `clearIndent()` resets a node's depth to its kind default — 0 for a
root-kind node, 1 for a child/group-kind node — regardless of the current
depth, and therefore never sets a group node's depth to 0; evaluated
concretely after three `indent()` calls on the scenario root and two on its
child. -/
theorem c9_clearIndent_kind_default (sys : Sys) (i : Nat) :
    (nodeAt (clearIndent sys i).nodes i).depth
      = (if (nodeAt sys.nodes i).isSub then 1 else 0)
    ∧ ((nodeAt sys.nodes i).isSub = true → (nodeAt (clearIndent sys i).nodes i).depth = 1)
    ∧ ((nodeAt sys.nodes i).isSub = false → (nodeAt (clearIndent sys i).nodes i).depth = 0)
    ∧ ((nodeAt sys.nodes i).isSub = true → (nodeAt (clearIndent sys i).nodes i).depth ≠ 0)
    ∧ (nodeAt (clearIndent (indent (indent (indent treeSys 0) 0) 0) 0).nodes 0).depth = 0
    ∧ (nodeAt (clearIndent (indent (indent treeSys 1) 1) 1).nodes 1).depth = 1 := by
  have hC : (nodeAt (clearIndent sys i).nodes i).depth
      = (if (nodeAt sys.nodes i).isSub then 1 else 0) := by
    simp only [clearIndent, Sys.setNode, Node.defaultDepth]
    by_cases hi : i < sys.nodes.length
    · rw [nodeAt_set_self _ _ _ hi]
    · have hle := Nat.le_of_not_lt hi
      rw [List.set_eq_of_length_le hle, nodeAt_oob _ _ hle]
      decide
  refine ⟨hC, ?_, ?_, ?_, by decide, by decide⟩
  · intro hs
    rw [hC, hs]
    decide
  · intro hs
    rw [hC, hs]
    decide
  · intro hs
    rw [hC, hs]
    decide

/-- C9 witness: the group-kind case evaluated on the scenario child. -/
theorem c9_clearIndent_kind_default_witness :
    (nodeAt (clearIndent treeSys 1).nodes 1).depth = 1 :=
  (c9_clearIndent_kind_default treeSys 1).2.1 (by decide)

/-- C10: calling `write` with a `null`/`undefined` message throws the
TypeError from `message.toString()` before producing any output and before
mutating any state: the whole result is the unchanged state paired with the
error, so the console transcript, the streams, and every node (depth,
temporary-indent flag, timestamps) are exactly as before the call. -/
theorem c10_write_null_throws_unchanged (c : Collab) (sys : Sys) (i : Nat) (now : Int)
    (args : List String) :
    write c sys i now none args = (sys, Except.error WriteErr.nullMessage)
    ∧ (write c sys i now none args).1.console = sys.console
    ∧ (write c sys i now none args).1.streams = sys.streams
    ∧ nodeAt (write c sys i now none args).1.nodes i = nodeAt sys.nodes i :=
  ⟨rfl, rfl, rfl, rfl⟩

end Treebark
